import Mathlib

/-!
Shallow embedding of the manual-splitter backend (src/app.py) and proofs of
its specified properties.

The service is a stateless HTTP handler over an in-memory document, a list
of lines.  We embed each handler as a pure Lean function:

* lines and document text are `List Char` / `List (List Char)`;
* the external Tokenizer (tiktoken `cl100k_base`) is an opaque parameter
  `tok : List Char → Nat`;
* UTF-8 decoding plus `str.splitlines` in the upload handler is an opaque
  parameter `decode : List Nat → Except String (List (List Char))`
  (bytes in, lines out, or a decode-error message);
* HTTP 400 responses are `AppError.client`, HTTP 500 are `AppError.internal`;
* Python slicing `l[s:t]` (with its negative-index and clamping rules) is
  `pySlice`; Python `str.replace` / `str.count` (non-overlapping, left to
  right, with CPython's empty-pattern behaviour) are `pyReplace` / `pyCount`;
* the filesystem side of export is represented by the list of
  (filename, content) pairs the handler writes, in order, plus the manifest
  object it serialises into `metadata.json`.
-/

set_option autoImplicit false

namespace ManualSplitter

universe u

/-- The two error classes of the service: HTTP 400 (client) and HTTP 500
(internal), each carrying the human-readable message from `app.py`. -/
inductive AppError where
  | client : String → AppError
  | internal : String → AppError
deriving DecidableEq

instance {ε α : Type u} [DecidableEq ε] [DecidableEq α] :
    DecidableEq (Except ε α) := fun a b =>
  match a, b with
  | .ok x, .ok y =>
    if h : x = y then .isTrue (by rw [h]) else .isFalse (by simp [h])
  | .error x, .error y =>
    if h : x = y then .isTrue (by rw [h]) else .isFalse (by simp [h])
  | .ok _, .error _ => .isFalse (by simp)
  | .error _, .ok _ => .isFalse (by simp)

/-! ### Python primitives used by the handlers -/

/-- Normalise a Python slice endpoint `i` against a sequence of length `n`:
negative indices count from the end and everything is clamped into `[0, n]`. -/
def pyIndex (n : Nat) (i : Int) : Nat :=
  if i < 0 then (max (i + n) 0).toNat else min i.toNat n

/-- Python slicing `l[s:t]` with step 1: drop up to the normalised start,
take up to the normalised stop. -/
def pySlice {α : Type u} (l : List α) (s t : Int) : List α :=
  (l.drop (pyIndex l.length s)).take (pyIndex l.length t - pyIndex l.length s)

/-- The scanner behind CPython `str.replace` for a non-empty pattern: walk the
string left to right; on a match emit the replacement and skip the rest of the
match (tracked by the `skip` counter, so the recursion is structural),
otherwise keep the character and move one position. -/
def replaceAux (pat rep : List Char) (skip : Nat) : List Char → List Char
  | [] => []
  | c :: cs =>
    match skip with
    | k + 1 => replaceAux pat rep k cs
    | 0 =>
      if pat.isPrefixOf (c :: cs) then
        rep ++ replaceAux pat rep (pat.length - 1) cs
      else
        c :: replaceAux pat rep 0 cs

/-- The scanner behind CPython `str.count` for a non-empty pattern:
non-overlapping occurrences, counted left to right. -/
def countAux (pat : List Char) (skip : Nat) : List Char → Nat
  | [] => 0
  | c :: cs =>
    match skip with
    | k + 1 => countAux pat k cs
    | 0 =>
      if pat.isPrefixOf (c :: cs) then
        countAux pat (pat.length - 1) cs + 1
      else
        countAux pat 0 cs

/-- Python `s.replace(pat, rep)`.  CPython special-cases the empty pattern:
the replacement is interleaved before every character and once at the end. -/
def pyReplace (s pat rep : List Char) : List Char :=
  if pat.isEmpty then rep ++ s.flatMap (fun c => c :: rep)
  else replaceAux pat rep 0 s

/-- Python `s.count(pat)`.  CPython returns `len(s) + 1` for the empty
pattern (one empty match at every position including the end). -/
def pyCount (s pat : List Char) : Nat :=
  if pat.isEmpty then s.length + 1 else countAux pat 0 s

/-- Join a list of lines with newline separators, as `'\n'.join(...)` does. -/
def joinLines (lines : List (List Char)) : List Char :=
  List.intercalate ['\n'] lines

/-- Python `s.endswith(suffix)`: the suffix's characters are a suffix of the
string's characters. -/
def pyEndsWith (s suffix : String) : Bool :=
  suffix.data.isSuffixOf s.data

/-! ### Data model -/

/-- A section as the export handler consumes it after its structural
validation: integer `start` and `end` plus the three optional JSON fields.
`end` is a Lean keyword, hence the guillemets. -/
structure Section where
  start : Int
  «end» : Int
  title : Option String
  tokenCount : Option Int
  shouldSummarize : Option Bool
deriving DecidableEq

/-- One record of the `metadata.json` manifest (`app.py`, export handler). -/
structure ManifestEntry where
  filename : String
  index : Nat
  title : String
  start_line : Int
  end_line : Int
  token_count : Int
  should_summarize : Bool
deriving DecidableEq

/-- The manifest object serialised into `metadata.json`. -/
structure Manifest where
  sections : List ManifestEntry
  total_sections : Nat
deriving DecidableEq

/-- The observable outcome of a successful export call: the output path, the
per-section files written (filename, content) in write order, the manifest
written to `metadata.json`, and the `files` list of the JSON response. -/
structure ExportResult where
  outputPath : String
  sectionFiles : List (String × List Char)
  manifest : Manifest
  files : List String
deriving DecidableEq

/-- Successful response of the token-count handler. -/
structure TokenResult where
  token_count : Nat
  start_line : Int
  end_line : Int
deriving DecidableEq

/-- Successful response of the replace handler. -/
structure ReplaceResult where
  lines : List (List Char)
  replacements : Nat
deriving DecidableEq

/-- An uploaded multipart file: its filename and raw byte content. -/
structure FilePart where
  filename : String
  content : List Nat
deriving DecidableEq

/-- Successful response of the upload handler. -/
structure UploadResult where
  filename : String
  lines : List (List Char)
deriving DecidableEq

/-! ### The handlers -/

/-- Embedding of `upload_file` (`app.py` lines 29-64): reject a missing file
part, an empty filename, then a filename that does not end in `.txt`; only
then read and decode the content (the opaque `decode` stands for
`content.decode('utf-8')` followed by `splitlines`), mapping a decode
failure to an internal error. -/
def upload_file (decode : List Nat → Except String (List (List Char)))
    (part : Option FilePart) : Except AppError UploadResult :=
  match part with
  | none => .error (.client "No file part")
  | some file =>
    if file.filename = "" then .error (.client "No selected file")
    else if ¬ pyEndsWith file.filename ".txt" then
      .error (.client "Only .txt files are allowed")
    else
      match decode file.content with
      | .error e => .error (.internal e)
      | .ok lines => .ok ⟨file.filename, lines⟩

/-- Embedding of `count_tokens` (`app.py` lines 66-98): validate
`0 <= start <= end < len(lines)`, join `lines[start:end+1]` with newlines,
and return the tokenizer's count with the echoed indices. -/
def count_tokens (tok : List Char → Nat) (lines : List (List Char))
    (start «end» : Int) : Except AppError TokenResult :=
  if 0 ≤ start ∧ start ≤ «end» ∧ «end» < (lines.length : Int) then
    .ok ⟨tok (joinLines (pySlice lines start («end» + 1))), start, «end»⟩
  else
    .error (.client "Invalid line range")

/-- The per-section range check of the export handler (`app.py` line 119):
a section is invalid when `start < 0` or `end >= len(lines)`.
Note `start <= end` is not checked. -/
def sectionInvalid (n : Nat) (s : Section) : Bool :=
  decide (s.start < 0) || decide ((n : Int) ≤ s.«end»)

/-- The client-error message of `app.py` line 120 for an out-of-bounds
section. -/
def rangeErrorMsg (s : Section) : String :=
  "Section range " ++ toString s.start ++ "-" ++ toString s.«end» ++
    " out of bounds"

/-- Filename generated for the section at 0-based position `i`
(`app.py` line 133): `section_{i+1}.txt`, derived from position only. -/
def sectionFileName (i : Nat) : String :=
  "section_" ++ toString (i + 1) ++ ".txt"

/-- The text written for one section (`app.py` line 132):
`'\n'.join(lines[start:end+1])`. -/
def sectionText (lines : List (List Char)) (s : Section) : List Char :=
  joinLines (pySlice lines s.start (s.«end» + 1))

/-- The files written by the export loop (`app.py` lines 129-136), starting
at 0-based position `i`. -/
def buildFiles (lines : List (List Char)) (i : Nat) :
    List Section → List (String × List Char)
  | [] => []
  | s :: rest => (sectionFileName i, sectionText lines s) :: buildFiles lines (i + 1) rest

/-- The manifest record for the section at 0-based position `i`
(`app.py` lines 144-152), with the `.get` defaults of the source:
title defaults to `Section {i+1}`, `tokenCount` to 0, `shouldSummarize`
to `True`. -/
def manifestEntry (i : Nat) (s : Section) : ManifestEntry :=
  ⟨sectionFileName i, i + 1,
    s.title.getD ("Section " ++ toString (i + 1)),
    s.start, s.«end»,
    s.tokenCount.getD 0,
    s.shouldSummarize.getD true⟩

/-- The manifest records (`app.py` lines 143-154), starting at 0-based
position `i`. -/
def buildEntries (i : Nat) : List Section → List ManifestEntry
  | [] => []
  | s :: rest => manifestEntry i s :: buildEntries (i + 1) rest

/-- Embedding of `export_sections` (`app.py` lines 100-173): validate every
section (fail fast on the first out-of-bounds one) before any file is
produced; on success write one `section_{i+1}.txt` per section in input
order, then `metadata.json`, and answer with the file list.  Filesystem
faults are external and not modelled: the validated path always succeeds. -/
def export_sections (lines : List (List Char)) (sections : List Section)
    (outputPath : String) : Except AppError ExportResult :=
  match sections.find? (fun s => sectionInvalid lines.length s) with
  | some s => .error (.client (rangeErrorMsg s))
  | none =>
    .ok ⟨outputPath,
      buildFiles lines 0 sections,
      ⟨buildEntries 0 sections, sections.length⟩,
      (buildFiles lines 0 sections).map Prod.fst ++ ["metadata.json"]⟩

/-- Embedding of `replace_text` (`app.py` lines 175-196): map Python
`str.replace` over the lines and, independently of the mutation, sum Python
`str.count` over the original lines. -/
def replace_text (lines : List (List Char)) (search repl : List Char) :
    ReplaceResult :=
  ⟨lines.map (fun line => pyReplace line search repl),
    (lines.map (fun line => pyCount line search)).sum⟩

/-- Embedding of `health_check` (`app.py` lines 25-27). -/
def health_check : String := "ok"

/-- Placeholder section used only as the default of `List.getD`. -/
def defaultSection : Section := ⟨0, 0, none, none, none⟩

/-- Placeholder manifest entry used only as the default of `List.getD`. -/
def defaultEntry : ManifestEntry := ⟨"", 0, "", 0, 0, 0, true⟩

/-! ### Helper lemmas -/

theorem pySlice_valid {α : Type u} (l : List α) (s e : Int)
    (h0 : 0 ≤ s) (h1 : s ≤ e) (h2 : e < (l.length : Int)) :
    pySlice l s (e + 1) = (l.drop s.toNat).take (e.toNat + 1 - s.toNat) := by
  unfold pySlice pyIndex
  rw [if_neg (by omega), if_neg (by omega)]
  have h3 : min s.toNat l.length = s.toNat := Nat.min_eq_left (by omega)
  have h4 : min (e + 1).toNat l.length = (e + 1).toNat := Nat.min_eq_left (by omega)
  rw [h3, h4]
  congr 1
  omega

theorem sectionInvalid_iff (n : Nat) (s : Section) :
    sectionInvalid n s = true ↔ (s.start < 0 ∨ (n : Int) ≤ s.«end») := by
  simp [sectionInvalid]

theorem getD_mem {α : Type u} (l : List α) (i : Nat) (d : α) (h : i < l.length) :
    l.getD i d ∈ l := by
  induction l generalizing i with
  | nil => simp at h
  | cons a t ih =>
    cases i with
    | zero => simp
    | succ n =>
      rw [List.getD_cons_succ]
      exact List.mem_cons_of_mem _ (ih n (by simpa using h))

theorem buildFiles_length (lines : List (List Char)) :
    ∀ (ss : List Section) (i : Nat), (buildFiles lines i ss).length = ss.length := by
  intro ss
  induction ss with
  | nil => intro i; rfl
  | cons s rest ih => intro i; simp [buildFiles, ih]

theorem buildFiles_getD (lines : List (List Char)) :
    ∀ (ss : List Section) (i k : Nat), k < ss.length →
      (buildFiles lines i ss).getD k ("", []) =
        (sectionFileName (i + k), sectionText lines (ss.getD k defaultSection)) := by
  intro ss
  induction ss with
  | nil => intro i k h; simp at h
  | cons s rest ih =>
    intro i k h
    cases k with
    | zero => simp [buildFiles]
    | succ m =>
      rw [buildFiles, List.getD_cons_succ, List.getD_cons_succ,
        ih (i + 1) m (by simpa using h)]
      congr 2
      omega

theorem buildEntries_length :
    ∀ (ss : List Section) (i : Nat), (buildEntries i ss).length = ss.length := by
  intro ss
  induction ss with
  | nil => intro i; rfl
  | cons s rest ih => intro i; simp [buildEntries, ih]

theorem buildEntries_getD :
    ∀ (ss : List Section) (i k : Nat), k < ss.length →
      (buildEntries i ss).getD k defaultEntry =
        manifestEntry (i + k) (ss.getD k defaultSection) := by
  intro ss
  induction ss with
  | nil => intro i k h; simp at h
  | cons s rest ih =>
    intro i k h
    cases k with
    | zero => simp [buildEntries]
    | succ m =>
      rw [buildEntries, List.getD_cons_succ, List.getD_cons_succ,
        ih (i + 1) m (by simpa using h)]
      congr 1
      omega

/-- The value the export handler answers with whenever validation passes. -/
def exportOkValue (lines : List (List Char)) (sections : List Section)
    (outputPath : String) : ExportResult :=
  ⟨outputPath,
    buildFiles lines 0 sections,
    ⟨buildEntries 0 sections, sections.length⟩,
    (buildFiles lines 0 sections).map Prod.fst ++ ["metadata.json"]⟩

theorem export_sections_ok_of_valid (lines : List (List Char))
    (sections : List Section) (path : String)
    (h : ∀ s ∈ sections, sectionInvalid lines.length s = false) :
    export_sections lines sections path = .ok (exportOkValue lines sections path) := by
  have hf : sections.find? (fun s => sectionInvalid lines.length s) = none :=
    List.find?_eq_none.mpr (by intro x hx; simp [h x hx])
  simp only [export_sections, hf, exportOkValue]

theorem export_sections_ok_inv (lines : List (List Char))
    (sections : List Section) (path : String) (r : ExportResult)
    (h : export_sections lines sections path = .ok r) :
    r = exportOkValue lines sections path := by
  unfold export_sections at h
  cases hf : sections.find? (fun s => sectionInvalid lines.length s) with
  | none =>
    rw [hf] at h
    simpa [exportOkValue] using h.symm
  | some s =>
    rw [hf] at h
    simp at h

theorem export_sections_error_of_invalid (lines : List (List Char))
    (sections : List Section) (path : String)
    (h : ∃ s ∈ sections, sectionInvalid lines.length s = true) :
    ∃ s ∈ sections, sectionInvalid lines.length s = true ∧
      export_sections lines sections path = .error (.client (rangeErrorMsg s)) := by
  have hs : (sections.find? (fun s => sectionInvalid lines.length s)).isSome := by
    rw [List.find?_isSome]
    obtain ⟨s, hs, hv⟩ := h
    exact ⟨s, hs, by simpa using hv⟩
  obtain ⟨s, hf⟩ := Option.isSome_iff_exists.mp hs
  refine ⟨s, List.mem_of_find?_eq_some hf, by simpa using List.find?_some hf, ?_⟩
  simp only [export_sections, hf]

theorem replace_count_length (pat rep : List Char) (hp : pat ≠ []) :
    ∀ (s : List Char) (k : Nat), k ≤ s.length →
      (replaceAux pat rep k s).length + countAux pat k s * pat.length
        = (s.length - k) + countAux pat k s * rep.length := by
  intro s
  induction s with
  | nil =>
    intro k hk
    simp [replaceAux, countAux]
  | cons c cs ih =>
    intro k hk
    cases k with
    | succ m =>
      rw [replaceAux, countAux]
      have := ih m (by simpa using hk)
      simp only [List.length_cons]
      omega
    | zero =>
      rw [replaceAux, countAux]
      by_cases hpre : pat.isPrefixOf (c :: cs)
      · rw [if_pos hpre, if_pos hpre]
        have hlen : pat.length ≤ cs.length + 1 :=
          by simpa using (List.isPrefixOf_iff_prefix.mp hpre).length_le
        have hp1 : 1 ≤ pat.length := by
          cases pat with
          | nil => exact absurd rfl hp
          | cons a t => simp
        have := ih (pat.length - 1) (by omega)
        simp only [List.length_append, List.length_cons, Nat.add_mul, Nat.one_mul]
        omega
      · rw [if_neg hpre, if_neg hpre]
        have := ih 0 (by omega)
        simp only [List.length_cons]
        omega

theorem interleave_length (rep : List Char) :
    ∀ (l : List Char), (l.flatMap fun c => c :: rep).length = l.length * (rep.length + 1) := by
  intro l
  induction l with
  | nil => simp
  | cons c cs ih => simp [ih, Nat.succ_mul, Nat.add_mul]; omega

/-- The replacement count and the mutation agree: the length of a replaced
line differs from the original by exactly (count of matches) times the length
difference between replacement and pattern. -/
theorem pyReplace_length (line pat rep : List Char) :
    (pyReplace line pat rep).length + pyCount line pat * pat.length
      = line.length + pyCount line pat * rep.length := by
  by_cases hp : pat.isEmpty
  · have hpe : pat = [] := List.isEmpty_iff.mp hp
    subst hpe
    have h1 : pyReplace line [] rep = rep ++ line.flatMap fun c => c :: rep := by
      simp [pyReplace]
    have h2 : pyCount line [] = line.length + 1 := by
      simp [pyCount]
    rw [h1, h2, List.length_append, interleave_length]
    simp only [List.length_nil, Nat.mul_zero, Nat.add_zero]
    ring
  · have hpne : pat ≠ [] := by simpa [List.isEmpty_iff] using hp
    simp only [pyReplace, pyCount, if_neg hp]
    have := replace_count_length pat rep hpne line 0 (by omega)
    omega

/-! ### Claim theorems -/

/-- C1: for every tokenizer, line sequence and integers with
`0 <= start <= end < len(lines)`, the token-count operation returns (as a
`Nat`, hence non-negative) the Tokenizer's count on the string formed by
joining `lines[start..end]` inclusive with newline separators, together with
the echoed start and end indices.  Determinism is immediate: the handler is
a pure function of its input. -/
theorem count_tokens_valid_range (tok : List Char → Nat)
    (lines : List (List Char)) (start «end» : Int)
    (h0 : 0 ≤ start) (h1 : start ≤ «end») (h2 : «end» < (lines.length : Int)) :
    count_tokens tok lines start «end» =
      .ok ⟨tok (List.intercalate ['\n']
          ((lines.drop start.toNat).take («end».toNat + 1 - start.toNat))),
        start, «end»⟩ := by
  unfold count_tokens
  rw [if_pos ⟨h0, h1, h2⟩]
  unfold joinLines
  rw [pySlice_valid lines start «end» h0 h1 h2]

theorem count_tokens_valid_range_witness :
    count_tokens List.length [['a'], ['b', 'c']] 0 1 = .ok ⟨4, 0, 1⟩ := by
  rw [count_tokens_valid_range List.length [['a'], ['b', 'c']] 0 1
    (by decide) (by decide) (by decide)]
  rfl

/-- C6: every token-count request violating `0 <= start <= end < len(lines)`
is answered with the client error "Invalid line range"; the handler is total,
so it never crashes on such input. -/
theorem count_tokens_invalid_range (tok : List Char → Nat)
    (lines : List (List Char)) (start «end» : Int)
    (h : ¬ (0 ≤ start ∧ start ≤ «end» ∧ «end» < (lines.length : Int))) :
    count_tokens tok lines start «end» = .error (.client "Invalid line range") := by
  unfold count_tokens
  rw [if_neg h]

theorem count_tokens_invalid_range_witness :
    count_tokens List.length [['a'], ['b', 'c']] 1 0 =
      .error (.client "Invalid line range") := by
  exact count_tokens_invalid_range List.length [['a'], ['b', 'c']] 1 0 (by decide)

/-- C2 counterexample: the export operation does not reject a section with
`start > end`.  With two lines and the single section `start = 1, end = 0`
(both indices inside `[0, 2)`), export succeeds and silently writes an empty
`section_1.txt` instead of returning a client error. -/
theorem export_reversed_section_accepted :
    export_sections [['a'], ['b']] [⟨1, 0, none, none, none⟩] "out" =
      .ok ⟨"out", [("section_1.txt", [])],
        ⟨[⟨"section_1.txt", 1, "Section 1", 1, 0, 0, true⟩], 1⟩,
        ["section_1.txt", "metadata.json"]⟩ := by
  decide

/-- C2 amended: the token-count operation rejects any violation of
`0 <= start <= end < len(lines)` with a client error; the export operation
rejects a section with `start < 0` or `end >= len(lines)` with a client
error, but it does not check `start <= end`: every section list whose
members merely satisfy `start >= 0` and `end < len(lines)` is processed
successfully, so an in-bounds reversed section is silently processed
(producing an empty section text) rather than rejected. -/
theorem section_validation_amended (tok : List Char → Nat)
    (lines lines2 lines3 : List (List Char)) (start «end» : Int)
    (sections2 sections3 : List Section) (path2 path3 : String)
    (hc : ¬ (0 ≤ start ∧ start ≤ «end» ∧ «end» < (lines.length : Int)))
    (he : ∃ s ∈ sections2, s.start < 0 ∨ (lines2.length : Int) ≤ s.«end»)
    (ha : ∀ s ∈ sections3, 0 ≤ s.start ∧ s.«end» < (lines3.length : Int)) :
    count_tokens tok lines start «end» = .error (.client "Invalid line range") ∧
    (∃ m, export_sections lines2 sections2 path2 = .error (.client m)) ∧
    (∃ r, export_sections lines3 sections3 path3 = .ok r) := by
  refine ⟨by unfold count_tokens; rw [if_neg hc], ?_, ?_⟩
  · obtain ⟨s, hs, hv⟩ := he
    obtain ⟨s', _, _, herr⟩ := export_sections_error_of_invalid lines2 sections2 path2
      ⟨s, hs, (sectionInvalid_iff _ _).mpr hv⟩
    exact ⟨rangeErrorMsg s', herr⟩
  · refine ⟨_, export_sections_ok_of_valid lines3 sections3 path3 ?_⟩
    intro s hs
    have := ha s hs
    simp [sectionInvalid]
    omega

theorem section_validation_amended_witness :
    count_tokens List.length [['a']] (-1) 0 = .error (.client "Invalid line range") ∧
    (∃ m, export_sections [['a']] [⟨0, 1, none, none, none⟩] "out" =
      .error (.client m)) ∧
    (∃ r, export_sections [['a'], ['b']] [⟨1, 0, none, none, none⟩] "out" =
      .ok r) := by
  refine section_validation_amended List.length [['a']] [['a']] [['a'], ['b']]
    (-1) 0 [⟨0, 1, none, none, none⟩] [⟨1, 0, none, none, none⟩] "out" "out"
    (by decide) ⟨⟨0, 1, none, none, none⟩, by decide, by decide⟩ ?_
  intro s hs
  have : s = ⟨1, 0, none, none, none⟩ := by simpa using hs
  rw [this]
  exact ⟨by decide, by decide⟩

/-- C3: an export request containing a section with `end >= len(lines)` or
`start < 0` is answered with the client error naming the offending
section's range, and the call produces no output: the result is an error
value, and the written files (the `sectionFiles` and `files` components)
exist only in the `ok` case, which the handler reaches only after the
validation loop over all sections has finished. -/
theorem export_sections_rejects_out_of_bounds (lines : List (List Char))
    (sections : List Section) (path : String)
    (h : ∃ s ∈ sections, (lines.length : Int) ≤ s.«end» ∨ s.start < 0) :
    ∃ s ∈ sections, ((lines.length : Int) ≤ s.«end» ∨ s.start < 0) ∧
      export_sections lines sections path =
        .error (.client ("Section range " ++ toString s.start ++ "-" ++
          toString s.«end» ++ " out of bounds")) := by
  obtain ⟨s, hs, hv⟩ := h
  obtain ⟨s', hs', hv', herr⟩ := export_sections_error_of_invalid lines sections path
    ⟨s, hs, (sectionInvalid_iff _ _).mpr hv.symm⟩
  exact ⟨s', hs', ((sectionInvalid_iff _ _).mp hv').symm, herr⟩

theorem export_sections_rejects_out_of_bounds_witness :
    export_sections [['a']] [⟨0, 5, none, none, none⟩] "out" =
      .error (.client "Section range 0-5 out of bounds") := by
  obtain ⟨s, hs, _, herr⟩ := export_sections_rejects_out_of_bounds
    [['a']] [⟨0, 5, none, none, none⟩] "out"
    ⟨⟨0, 5, none, none, none⟩, by decide, by decide⟩
  have : s = ⟨0, 5, none, none, none⟩ := by simpa using hs
  rw [this] at herr
  exact herr

/-- C5: for an export call whose sections all satisfy
`0 <= start <= end < len(lines)`, the call succeeds and the file written for
section `i` (0-based) is named `section_{i+1}.txt` — a name derived from the
position alone, the title never enters `sectionFileName` — and its content is
exactly `lines[start..end]` inclusive joined by newline, so reading it back
reproduces the original sub-range. -/
theorem export_files_roundtrip (lines : List (List Char))
    (sections : List Section) (path : String)
    (hval : ∀ s ∈ sections,
      0 ≤ s.start ∧ s.start ≤ s.«end» ∧ s.«end» < (lines.length : Int)) :
    ∃ r, export_sections lines sections path = .ok r ∧
      r.sectionFiles.length = sections.length ∧
      ∀ i, i < sections.length →
        (r.sectionFiles.getD i ("", [])).1 =
          "section_" ++ toString (i + 1) ++ ".txt" ∧
        (r.sectionFiles.getD i ("", [])).2 = List.intercalate ['\n']
          ((lines.drop ((sections.getD i defaultSection).start.toNat)).take
            ((sections.getD i defaultSection).«end».toNat + 1 -
              (sections.getD i defaultSection).start.toNat)) := by
  have hvalid : ∀ s ∈ sections, sectionInvalid lines.length s = false := by
    intro s hs
    have := hval s hs
    simp only [sectionInvalid, Bool.or_eq_false_iff, decide_eq_false_iff_not]
    omega
  refine ⟨_, export_sections_ok_of_valid lines sections path hvalid, ?_, ?_⟩
  · simp [exportOkValue, buildFiles_length]
  · intro i hi
    have hfg := buildFiles_getD lines sections 0 i hi
    have hv := hval _ (getD_mem sections i defaultSection hi)
    constructor
    · simp only [exportOkValue]
      rw [hfg]
      simp [sectionFileName]
    · simp only [exportOkValue]
      rw [hfg]
      simp only [sectionText, joinLines]
      rw [pySlice_valid lines _ _ hv.1 hv.2.1 hv.2.2]

theorem export_files_roundtrip_witness :
    ∃ r, export_sections [['a'], ['b']] [⟨0, 1, none, none, none⟩] "out" = .ok r ∧
      (r.sectionFiles.getD 0 ("", [])).1 = "section_1.txt" ∧
      (r.sectionFiles.getD 0 ("", [])).2 = ['a', '\n', 'b'] := by
  obtain ⟨r, hok, hlen, hi⟩ := export_files_roundtrip [['a'], ['b']]
    [⟨0, 1, none, none, none⟩] "out" (by decide)
  obtain ⟨h1, h2⟩ := hi 0 (by decide)
  refine ⟨r, hok, ?_, ?_⟩
  · rw [h1]; rfl
  · rw [h2]; rfl

/-- C7: whenever export succeeds, the manifest written to `metadata.json`
has one record per section, in input order: record `i` (0-based) carries
filename `section_{i+1}.txt`, index `i+1`, the section's title or
`Section {i+1}` when absent, the echoed start and end lines, and the
`tokenCount` and `shouldSummarize` pass-through values; `total_sections` is
the number of sections. -/
theorem export_manifest_spec (lines : List (List Char))
    (sections : List Section) (path : String) (r : ExportResult)
    (h : export_sections lines sections path = .ok r) :
    r.manifest.total_sections = sections.length ∧
    r.manifest.sections.length = sections.length ∧
    ∀ i, i < sections.length →
      r.manifest.sections.getD i defaultEntry =
        ⟨"section_" ++ toString (i + 1) ++ ".txt", i + 1,
          (sections.getD i defaultSection).title.getD
            ("Section " ++ toString (i + 1)),
          (sections.getD i defaultSection).start,
          (sections.getD i defaultSection).«end»,
          (sections.getD i defaultSection).tokenCount.getD 0,
          (sections.getD i defaultSection).shouldSummarize.getD true⟩ := by
  have hr := export_sections_ok_inv lines sections path r h
  subst hr
  refine ⟨rfl, by simp [exportOkValue, buildEntries_length], ?_⟩
  intro i hi
  simp only [exportOkValue]
  rw [buildEntries_getD sections 0 i hi]
  simp [manifestEntry, sectionFileName]

theorem export_manifest_spec_witness :
    ∃ r, export_sections [['a']] [⟨0, 0, some "T", some 7, some false⟩] "out" =
        .ok r ∧
      r.manifest.total_sections = 1 ∧
      r.manifest.sections.getD 0 defaultEntry =
        ⟨"section_1.txt", 1, "T", 0, 0, 7, false⟩ := by
  have hok : export_sections [['a']] [⟨0, 0, some "T", some 7, some false⟩] "out" =
      .ok (exportOkValue [['a']] [⟨0, 0, some "T", some 7, some false⟩] "out") := by
    decide
  obtain ⟨h1, h2, h3⟩ := export_manifest_spec _ _ _ _ hok
  refine ⟨_, hok, h1, ?_⟩
  rw [h3 0 (by decide)]
  decide

/-- C9: the export handler applies server-side defaults to the two
pass-through fields, each independently of the other: a section record
without `tokenCount` produces a manifest `token_count` of 0, and a section
record without `shouldSummarize` produces a manifest `should_summarize` of
`true`, whatever the other field holds. -/
theorem export_manifest_defaults (lines : List (List Char))
    (sections : List Section) (path : String) (r : ExportResult) (i : Nat)
    (h : export_sections lines sections path = .ok r)
    (hi : i < sections.length) :
    ((sections.getD i defaultSection).tokenCount = none →
      (r.manifest.sections.getD i defaultEntry).token_count = 0) ∧
    ((sections.getD i defaultSection).shouldSummarize = none →
      (r.manifest.sections.getD i defaultEntry).should_summarize = true) := by
  have hr := export_sections_ok_inv lines sections path r h
  subst hr
  have hb := buildEntries_getD sections 0 i hi
  constructor
  · intro htc
    show ((buildEntries 0 sections).getD i defaultEntry).token_count = 0
    rw [hb]
    show (sections.getD i defaultSection).tokenCount.getD 0 = 0
    rw [htc]
    rfl
  · intro hss
    show ((buildEntries 0 sections).getD i defaultEntry).should_summarize = true
    rw [hb]
    show (sections.getD i defaultSection).shouldSummarize.getD true = true
    rw [hss]
    rfl

theorem export_manifest_defaults_witness :
    ∃ r, export_sections [['a']]
        [⟨0, 0, none, none, some false⟩, ⟨0, 0, none, some 7, none⟩] "o" =
        .ok r ∧
      (r.manifest.sections.getD 0 defaultEntry).token_count = 0 ∧
      (r.manifest.sections.getD 0 defaultEntry).should_summarize = false ∧
      (r.manifest.sections.getD 1 defaultEntry).token_count = 7 ∧
      (r.manifest.sections.getD 1 defaultEntry).should_summarize = true := by
  have hok : export_sections [['a']]
      [⟨0, 0, none, none, some false⟩, ⟨0, 0, none, some 7, none⟩] "o" =
      .ok (exportOkValue [['a']]
        [⟨0, 0, none, none, some false⟩, ⟨0, 0, none, some 7, none⟩] "o") := by
    decide
  obtain ⟨h1, -⟩ := export_manifest_defaults _ _ _ _ 0 hok (by decide)
  obtain ⟨-, h2⟩ := export_manifest_defaults _ _ _ _ 1 hok (by decide)
  exact ⟨_, hok, h1 (by decide), by decide, by decide, h2 (by decide)⟩

/-- C4: the replace operation returns the lines with every non-overlapping
occurrence of the search string replaced left to right (`pyReplace` is the
embedding of CPython `str.replace`), and a replacements count that is the
total of `str.count` over the original, unmutated lines.  The third conjunct
ties the two together: per line, the length of the replaced line differs from
the original by the count times the pattern/replacement length difference,
i.e. the independent count equals the number of substitutions performed. -/
theorem replace_text_spec (lines : List (List Char)) (search repl : List Char) :
    (replace_text lines search repl).lines =
      lines.map (fun line => pyReplace line search repl) ∧
    (replace_text lines search repl).replacements =
      (lines.map (fun line => pyCount line search)).sum ∧
    ∀ line ∈ lines,
      (pyReplace line search repl).length + pyCount line search * search.length
        = line.length + pyCount line search * repl.length :=
  ⟨rfl, rfl, fun line _ => pyReplace_length line search repl⟩

theorem replace_text_spec_witness :
    (replace_text ["ab".data, "ba".data, "cc".data] "a".data "X".data).lines =
      ["Xb".data, "bX".data, "cc".data] ∧
    (replace_text ["ab".data, "ba".data, "cc".data] "a".data "X".data).replacements
      = 2 := by
  obtain ⟨h1, h2, -⟩ :=
    replace_text_spec ["ab".data, "ba".data, "cc".data] "a".data "X".data
  rw [h1, h2]
  exact ⟨by decide, by decide⟩

/-- C10: replace with an empty search string does not fail: it returns
`sum (len(line) + 1)` as the replacements count and interleaves the
replacement before every character and once at the end of every line,
matching CPython's empty-pattern `str.replace` and `str.count` semantics. -/
theorem replace_text_empty_search (lines : List (List Char)) (repl : List Char) :
    (replace_text lines [] repl).replacements =
      (lines.map (fun line => line.length + 1)).sum ∧
    (replace_text lines [] repl).lines =
      lines.map (fun line => repl ++ line.flatMap (fun c => [c] ++ repl)) := by
  constructor
  · simp [replace_text, pyCount]
  · simp [replace_text, pyReplace]

theorem replace_text_empty_search_witness :
    (replace_text ["ab".data] [] "X".data).replacements = 3 ∧
    (replace_text ["ab".data] [] "X".data).lines = ["XaXbX".data] := by
  obtain ⟨h1, h2⟩ := replace_text_empty_search ["ab".data] "X".data
  rw [h1, h2]
  exact ⟨by decide, by decide⟩

/-- C8: upload rejects a missing file part, an empty filename, and a
filename not ending in `.txt`, each with a client error, all before the
content is read or decoded: the result in each of these cases is literally
the same for every decode function and every byte content, as the equations
across `d, d'` and `c, c'` state. -/
theorem upload_file_guards (d d' : List Nat → Except String (List (List Char)))
    (name : String) (c c' : List Nat)
    (hne : name ≠ "") (hext : pyEndsWith name ".txt" = false) :
    upload_file d none = .error (.client "No file part") ∧
    upload_file d (some ⟨"", c⟩) = .error (.client "No selected file") ∧
    upload_file d (some ⟨"", c⟩) = upload_file d' (some ⟨"", c'⟩) ∧
    upload_file d (some ⟨name, c⟩) = .error (.client "Only .txt files are allowed") ∧
    upload_file d (some ⟨name, c⟩) = upload_file d' (some ⟨name, c'⟩) := by
  refine ⟨rfl, ?_, ?_, ?_, ?_⟩
  · simp [upload_file]
  · simp [upload_file]
  · simp [upload_file, hne, hext]
  · simp [upload_file, hne, hext]

theorem upload_file_guards_witness :
    upload_file (fun _ => .ok []) none = .error (.client "No file part") ∧
    upload_file (fun _ => .ok []) (some ⟨"", [0]⟩) =
      .error (.client "No selected file") ∧
    upload_file (fun _ => .ok []) (some ⟨"", [0]⟩) =
      upload_file (fun _ => .error "boom") (some ⟨"", [1]⟩) ∧
    upload_file (fun _ => .ok []) (some ⟨"a.pdf", [0]⟩) =
      .error (.client "Only .txt files are allowed") ∧
    upload_file (fun _ => .ok []) (some ⟨"a.pdf", [0]⟩) =
      upload_file (fun _ => .error "boom") (some ⟨"a.pdf", [1]⟩) :=
  upload_file_guards (fun _ => .ok []) (fun _ => .error "boom") "a.pdf" [0] [1]
    (by decide) (by decide)

end ManualSplitter
